import Mathlib

/-!
Shallow embedding of the matchete resemblance/matching engine
(src/assessor.rs, src/matcher.rs, src/composite.rs, src/core.rs,
src/weighted.rs, src/common.rs, src/types.rs).  Rust `f64` values are
modelled as `ℚ`; the one place the code manufactures `f64::INFINITY`
(the fold seed of the `Minimum` blender) is modelled by the two-point
extension `FVal`.  Fallible Rust code (`Result`) is modelled with
`Except`.
-/

namespace Matchete

/-- `iter().sum()` / `iter().map(f).sum()`: a left fold of `+` from 0,
exactly as Rust's `Sum` for `f64` accumulates. -/
def sumBy {α : Type} (f : α → ℚ) (l : List α) : ℚ :=
  l.foldl (fun acc x => acc + f x) 0

/-- One insertion step of the stable descending sort used to model
`slice::sort_by(|a, b| b.key.partial_cmp(&a.key).unwrap())`: the new
element goes before the first element whose key is ≤ its own, hence
after every earlier element of equal key. -/
def orderedInsertGe {α : Type} (k : α → ℚ) (x : α) : List α → List α
  | [] => [x]
  | y :: ys => if k y ≤ k x then x :: y :: ys else y :: orderedInsertGe k x ys

/-- Stable descending sort by a rational key (models Rust's stable
`sort_by` with a descending comparator). -/
def sortDescBy {α : Type} (k : α → ℚ) : List α → List α
  | [] => []
  | a :: l => orderedInsertGe k a (sortDescBy k l)

/-- Fold step keeping the first-encountered maximum: a later element
replaces the current best only when its key is strictly greater. -/
def firstMaxStep {α : Type} (k : α → ℚ) (acc : Option α) (x : α) : Option α :=
  match acc with
  | none => some x
  | some b => if k b < k x then some x else some b

/-- First-encountered maximum of a list (ties keep the earlier element). -/
def firstMax {α : Type} (k : α → ℚ) (l : List α) : Option α :=
  l.foldl (firstMaxStep k) none

/-- Helper for `dedupAdj`: `prev` is the last retained element, exactly
the comparison Rust's `Vec::dedup_by` performs. -/
def dedupAdjAux {α β : Type} [DecidableEq β] (k : α → β) (prev : α) : List α → List α
  | [] => []
  | b :: rest => if k b = k prev then dedupAdjAux k prev rest else b :: dedupAdjAux k b rest

/-- Rust's `Vec::dedup_by` with an equality predicate on the key `k`:
removes all but the first of each run of consecutive elements with
equal key.  It does NOT remove non-adjacent duplicates. -/
def dedupAdj {α β : Type} [DecidableEq β] (k : α → β) : List α → List α
  | [] => []
  | a :: rest => a :: dedupAdjAux k a rest

/-- `enum Resemblance` of src/assessor.rs. -/
inductive Resemblance where
  | Perfect : Resemblance
  | Partial : ℚ → Resemblance
  | Disparity : Resemblance
  deriving DecidableEq

/-- `impl From<f64> for Resemblance` (src/assessor.rs lines 13-23). -/
def Resemblance.fromF64 (f : ℚ) : Resemblance :=
  if f = 0 then .Disparity else if f = 1 then .Perfect else .Partial f

/-- `Resemblance::to_f64` (src/assessor.rs lines 36-42). -/
def Resemblance.to_f64 : Resemblance → ℚ
  | .Disparity => 0
  | .Perfect => 1
  | .Partial f => f

/-- `struct Dimension` of src/assessor.rs: the `Resembler` trait object
is embedded as a plain function `Q → C → Except E Resemblance`. -/
structure Dimension (Q C E : Type) where
  resembler : Q → C → Except E Resemblance
  weight : ℚ
  resemblance : Resemblance
  contribution : ℚ
  error : Option E

/-- `Dimension::new` (src/assessor.rs lines 59-67). -/
def Dimension.new {Q C E : Type} (r : Q → C → Except E Resemblance) (weight : ℚ) :
    Dimension Q C E :=
  ⟨r, weight, .Disparity, 0, none⟩

/-- `Dimension::assess` (src/assessor.rs lines 69-82): on success the
resemblance and `contribution = resemblance × weight` are stored, on
failure the dimension records the error with resemblance `Disparity`
and contribution 0. -/
def Dimension.assess {Q C E : Type} (q : Q) (c : C) (d : Dimension Q C E) :
    Dimension Q C E :=
  match d.resembler q c with
  | .ok r => { d with resemblance := r, contribution := r.to_f64 * d.weight, error := none }
  | .error e => { d with resemblance := .Disparity, contribution := 0, error := some e }

/-- A Rust `f64` that may be `f64::INFINITY` (produced by the fold seed
of the `Minimum` blender). -/
inductive FVal where
  | fin : ℚ → FVal
  | inf : FVal
  deriving DecidableEq

/-- Comparison on `FVal`: `inf` is above every finite value. -/
def FVal.le : FVal → FVal → Prop
  | .fin a, .fin b => a ≤ b
  | .fin _, .inf => True
  | .inf, .fin _ => False
  | .inf, .inf => True

instance : (x y : FVal) → Decidable (FVal.le x y)
  | .fin a, .fin b => inferInstanceAs (Decidable (a ≤ b))
  | .fin _, .inf => inferInstanceAs (Decidable True)
  | .inf, .fin _ => inferInstanceAs (Decidable False)
  | .inf, .inf => inferInstanceAs (Decidable True)

/-- `f64::min` restricted to the values the code can produce: `inf`
behaves as the identity, as `f64::min(INFINITY, x) = x`. -/
def FVal.fmin : FVal → FVal → FVal
  | .fin a, .fin b => .fin (min a b)
  | .fin a, .inf => .fin a
  | .inf, y => y

/-- `enum Blender` of src/assessor.rs. -/
inductive Blender where
  | Weighted : Blender
  | Minimum : Blender
  | Maximum : Blender
  | Product : Blender
  deriving DecidableEq

/-- `Blend::compute` (src/assessor.rs lines 128-139).  `Minimum` folds
`f64::min` from `f64::INFINITY`, so on an empty list it returns `inf`;
`Maximum` folds from `0.0`; `Product` is `iter().product()` (seed 1);
`Weighted` divides only when the total weight is strictly positive. -/
def Blender.compute (blender : Blender) (resemblances weights : List ℚ) : FVal :=
  match blender with
  | .Weighted =>
      let total_contribution := sumBy (fun p => p.1 * p.2) (resemblances.zip weights)
      let total_weight := sumBy id weights
      .fin (if 0 < total_weight then total_contribution / total_weight else 0)
  | .Minimum => resemblances.foldl (fun acc r => acc.fmin (.fin r)) .inf
  | .Maximum => .fin (resemblances.foldl (fun acc r => max acc r) 0)
  | .Product => .fin (resemblances.foldl (fun acc r => acc * r) 1)

/-- `struct Blend` of src/assessor.rs. -/
structure Blend (Q C E : Type) where
  dimensions : List (Dimension Q C E)
  blender : Blender

/-- `Blend::weighted` constructor. -/
def Blend.weighted {Q C E : Type} (ds : List (Dimension Q C E)) : Blend Q C E :=
  ⟨ds, .Weighted⟩

/-- `Blend::minimum` constructor. -/
def Blend.minimum {Q C E : Type} (ds : List (Dimension Q C E)) : Blend Q C E :=
  ⟨ds, .Minimum⟩

/-- `Blend::maximum` constructor. -/
def Blend.maximum {Q C E : Type} (ds : List (Dimension Q C E)) : Blend Q C E :=
  ⟨ds, .Maximum⟩

/-- `Blend::product` constructor. -/
def Blend.product {Q C E : Type} (ds : List (Dimension Q C E)) : Blend Q C E :=
  ⟨ds, .Product⟩

/-- The loop of `Blend::resemblance` (src/assessor.rs lines 149-157):
assess each dimension in order, returning the FIRST error encountered
(later dimensions are then not assessed). -/
def assessSeq {Q C E : Type} (q : Q) (c : C) :
    List (Dimension Q C E) → Except E (List (Dimension Q C E))
  | [] => .ok []
  | d :: ds =>
      let a := d.assess q c
      match a.error with
      | some e => .error e
      | none =>
          match assessSeq q c ds with
          | .error e => .error e
          | .ok rest => .ok (a :: rest)

/-- The value-to-`Resemblance` conversion at the end of
`Blend::resemblance` (src/assessor.rs lines 163-169): `value >= 1.0`
gives `Perfect` (this includes `INFINITY`), `value > 0.0` gives
`Partial`, anything else `Disparity`. -/
def resemblanceOfFVal : FVal → Resemblance
  | .inf => .Perfect
  | .fin v => if 1 ≤ v then .Perfect else if 0 < v then .Partial v else .Disparity

/-- `Blend::resemblance` (src/assessor.rs lines 148-173). -/
def Blend.resemblance {Q C E : Type} (b : Blend Q C E) (q : Q) (c : C) :
    Except E Resemblance :=
  match assessSeq q c b.dimensions with
  | .error e => .error e
  | .ok ds =>
      let rs := ds.map (fun d => d.resemblance.to_f64)
      let ws := ds.map (fun d => d.weight)
      .ok (resemblanceOfFVal (b.blender.compute rs ws))

/-- `struct Profile` of src/assessor.rs. -/
structure Profile (Q C E : Type) where
  query : Q
  candidate : C
  dimensions : List (Dimension Q C E)
  resemblance : Resemblance

/-- The numeric projection of a profile's resemblance, the sort and
comparison key of every ranking operation. -/
def keyP {Q C E : Type} (p : Profile Q C E) : ℚ :=
  p.resemblance.to_f64

/-- `Profile::viable` (src/assessor.rs lines 242-244): purely numeric,
`self.resemblance.to_f64() >= floor`. -/
def Profile.viable {Q C E : Type} (p : Profile Q C E) (floor : ℚ) : Bool :=
  decide (floor ≤ p.resemblance.to_f64)

/-- `Profile::has_errors`. -/
def Profile.has_errors {Q C E : Type} (p : Profile Q C E) : Bool :=
  p.dimensions.any (fun d => d.error.isSome)

/-- `Profile::errors`. -/
def Profile.errors {Q C E : Type} (p : Profile Q C E) : List E :=
  p.dimensions.filterMap (fun d => d.error)

/-- `struct Assessor` of src/assessor.rs (the `errors` scratch field is
modelled by the separate function `Assessor.profileErrors`). -/
structure Assessor (Q C E : Type) where
  dimensions : List (Dimension Q C E)
  floor : ℚ

/-- `Assessor::profile` (src/assessor.rs lines 322-345): assess every
dimension (a failed one keeps contribution 0), then aggregate
`Σ contribution / Σ weight`, guarded to 0 when `Σ weight` is not
positive. -/
def Assessor.profile {Q C E : Type} (a : Assessor Q C E) (q : Q) (c : C) :
    Profile Q C E :=
  let ds := a.dimensions.map (Dimension.assess q c)
  let total_contribution := sumBy (fun d => d.contribution) ds
  let total_weight := sumBy (fun d => d.weight) ds
  let total_resemblance :=
    if 0 < total_weight then total_contribution / total_weight else 0
  ⟨q, c, ds, Resemblance.fromF64 total_resemblance⟩

/-- The `self.errors` list left on the assessor by `Assessor::profile`
(src/assessor.rs lines 325-333): the errors of the failed dimensions,
in dimension order. -/
def Assessor.profileErrors {Q C E : Type} (a : Assessor Q C E) (q : Q) (c : C) :
    List E :=
  (a.dimensions.map (Dimension.assess q c)).filterMap (fun d => d.error)

/-- `Assessor::viable` (src/assessor.rs lines 351-353). -/
def Assessor.viable {Q C E : Type} (a : Assessor Q C E) (q : Q) (c : C) : Bool :=
  (a.profile q c).viable a.floor

/-- One iteration of the `Assessor::champion` loop (src/assessor.rs
lines 359-367): the state is `(best_profile, best_resemblance)` and a
profile replaces it only when viable AND strictly better. -/
def championStep {Q C E : Type} (floor : ℚ)
    (st : Option (Profile Q C E) × ℚ) (p : Profile Q C E) :
    Option (Profile Q C E) × ℚ :=
  if p.viable floor = true ∧ st.2 < keyP p then (some p, keyP p) else st

/-- `Assessor::champion` (src/assessor.rs lines 355-370):
`best_resemblance` starts at `-1.0`. -/
def Assessor.champion {Q C E : Type} (a : Assessor Q C E) (q : Q) (cs : List C) :
    Option (Profile Q C E) :=
  ((cs.map (a.profile q)).foldl (championStep a.floor) (none, -1)).1

/-- The viable profiles in input order — the list `Assessor::shortlist`
builds before sorting (src/assessor.rs lines 373-380). -/
def Assessor.viableProfiles {Q C E : Type} (a : Assessor Q C E) (q : Q) (cs : List C) :
    List (Profile Q C E) :=
  (cs.map (a.profile q)).filter (fun p => p.viable a.floor)

/-- `Assessor::shortlist` (src/assessor.rs lines 372-384): viable
profiles, stable-sorted descending by resemblance. -/
def Assessor.shortlist {Q C E : Type} (a : Assessor Q C E) (q : Q) (cs : List C) :
    List (Profile Q C E) :=
  sortDescBy keyP (a.viableProfiles q cs)

/-- `Assessor::constrain` (src/assessor.rs lines 386-390). -/
def Assessor.constrain {Q C E : Type} (a : Assessor Q C E) (q : Q) (cs : List C)
    (cap : ℕ) : List (Profile Q C E) :=
  (a.shortlist q cs).take cap

/-! The matcher world: src/common.rs, src/types.rs, src/matcher.rs,
src/composite.rs. -/

/-- `trait SimilarityMetric` of src/common.rs, embedded as a record of
its two methods (`is_exact_match` has the default body
`calculate >= 0.9999` unless overridden, see `Metric.ofCalculate`). -/
structure Metric (Q C : Type) where
  id : String
  calculate : Q → C → ℚ
  is_exact_match : Q → C → Bool

/-- A metric that keeps the trait's default `is_exact_match`
(src/common.rs lines 8-10): exact iff `calculate >= 0.9999`. -/
def Metric.ofCalculate {Q C : Type} (i : String) (f : Q → C → ℚ) : Metric Q C :=
  ⟨i, f, fun q c => decide (9999 / 10000 ≤ f q c)⟩

/-- `enum MatchType` of src/types.rs. -/
inductive MatchType where
  | Exact : MatchType
  | Similar : String → MatchType
  | NotFound : MatchType
  deriving DecidableEq

/-- `struct MetricScore` of src/types.rs. -/
structure MetricScore where
  id : String
  raw_score : ℚ
  weight : ℚ
  weighted_score : ℚ
  deriving DecidableEq

/-- `struct MatchResult` of src/types.rs. -/
structure MatchResult (Q C : Type) where
  score : ℚ
  query : Q
  candidate : C
  match_type : MatchType

/-- `struct DetailedMatchResult` of src/types.rs. -/
structure DetailedMatchResult (Q C : Type) where
  query : Q
  candidate : C
  score : ℚ
  match_type : MatchType
  metric_scores : List MetricScore
  is_match : Bool

/-- `struct Matcher` of src/matcher.rs: weighted metrics plus the
config threshold. -/
structure Matcher (Q C : Type) where
  metrics : List (Metric Q C × ℚ)
  threshold : ℚ

/-- `Matcher::get_metric_scores` (src/matcher.rs lines 71-89): build
one `MetricScore` per metric, then stable-sort descending by
`weighted_score`. -/
def Matcher.get_metric_scores {Q C : Type} (m : Matcher Q C) (q : Q) (c : C) :
    List MetricScore :=
  sortDescBy (fun s => s.weighted_score)
    (m.metrics.map (fun wm =>
      ⟨wm.1.id, wm.1.calculate q c, wm.2, wm.1.calculate q c * wm.2⟩))

/-- `Matcher::calculate_overall_score` (src/matcher.rs lines 92-106):
`Σ weighted_score / Σ weight`, guarded to 0 when the total weight is
not positive. -/
def Matcher.calculate_overall_score (metric_scores : List MetricScore) : ℚ :=
  let total_weighted_score := sumBy (fun s => s.weighted_score) metric_scores
  let total_weight := sumBy (fun s => s.weight) metric_scores
  if 0 < total_weight then total_weighted_score / total_weight else 0

/-- Rust's `Iterator::max_by` keyed on `raw_score`: it returns the LAST
of several equally maximal elements (the fold replaces on ties). -/
def maxByLastRaw (l : List MetricScore) : Option MetricScore :=
  l.foldl
    (fun acc x =>
      match acc with
      | none => some x
      | some b => if b.raw_score ≤ x.raw_score then some x else some b)
    none

/-- `Matcher::get_best_metric` (src/matcher.rs lines 109-113). -/
def Matcher.get_best_metric (metric_scores : List MetricScore) : Option String :=
  (maxByLastRaw metric_scores).map (fun s => s.id)

/-- `Matcher::analyze` (src/matcher.rs lines 116-150). -/
def Matcher.analyze {Q C : Type} (m : Matcher Q C) (q : Q) (c : C) :
    DetailedMatchResult Q C :=
  let metric_scores := m.get_metric_scores q c
  let is_exact := m.metrics.any (fun wm => wm.1.is_exact_match q c)
  let overall_score := Matcher.calculate_overall_score metric_scores
  let match_type :=
    if is_exact then MatchType.Exact
    else if m.threshold ≤ overall_score then
      match Matcher.get_best_metric metric_scores with
      | some best => MatchType.Similar best
      | none => MatchType.NotFound
    else MatchType.NotFound
  ⟨q, c, overall_score, match_type, metric_scores, decide (m.threshold ≤ overall_score)⟩

/-- `Matcher::find_matches` (src/matcher.rs lines 173-196): keep the
candidates whose analysis is a match, stable-sort descending by score,
truncate only when `limit > 0` and the list is longer than `limit`. -/
def Matcher.find_matches {Q C : Type} (m : Matcher Q C) (q : Q) (cs : List C)
    (limit : ℕ) : List (MatchResult Q C) :=
  let kept := cs.filterMap (fun c =>
    let r := m.analyze q c
    if r.is_match then some (⟨r.score, q, c, r.match_type⟩ : MatchResult Q C) else none)
  let sorted := sortDescBy (fun r => r.score) kept
  if 0 < limit ∧ limit < sorted.length then sorted.take limit else sorted

/-- `struct MultiMatcher` of src/matcher.rs. -/
structure MultiMatcher (Q C : Type) where
  matchers : List (Matcher Q C)
  threshold : ℚ

/-- `MultiMatcher::find_matches` (src/matcher.rs lines 290-312):
concatenate every sub-matcher's unlimited `find_matches`, stable-sort
descending by score, `dedup_by` on candidate equality (ADJACENT runs
only), then truncate when `limit > 0`. -/
def MultiMatcher.find_matches {Q C : Type} [DecidableEq C] (mm : MultiMatcher Q C)
    (q : Q) (cs : List C) (limit : ℕ) : List (MatchResult Q C) :=
  if cs.isEmpty || mm.matchers.isEmpty then []
  else
    let all_matches := mm.matchers.foldl (fun acc m => acc ++ m.find_matches q cs 0) []
    let sorted := sortDescBy (fun r => r.score) all_matches
    let deduped := dedupAdj (fun r => r.candidate) sorted
    if 0 < limit ∧ limit < deduped.length then deduped.take limit else deduped

/-- `enum CompositeStrategy` of src/composite.rs. -/
inductive CompositeStrategy where
  | Maximum : CompositeStrategy
  | Average : CompositeStrategy
  | Fallback : ℚ → CompositeStrategy
  | Weighted : List ℚ → CompositeStrategy

/-- `struct CompositeSimilarity` of src/composite.rs. -/
structure CompositeSimilarity (Q C : Type) where
  id : String
  metrics : List (Metric Q C)
  strategy : CompositeStrategy

/-- The `CompositeStrategy::Weighted` branch of
`CompositeSimilarity::calculate` (src/composite.rs lines 85-100):
position-indexed weights, default 1.0 beyond the vector's length,
division guarded to 0. -/
def weightedByPosition (scores : List ℚ) (weights : List ℚ) : ℚ :=
  let wts := (List.range scores.length).map (fun i => weights.getD i 1)
  let total_score := sumBy (fun p => p.1 * p.2) (scores.zip wts)
  let total_weight := sumBy id wts
  if 0 < total_weight then total_score / total_weight else 0

/-- `CompositeSimilarity::calculate` (src/composite.rs lines 57-102). -/
def CompositeSimilarity.calculate {Q C : Type} (cs : CompositeSimilarity Q C)
    (q : Q) (c : C) : ℚ :=
  if cs.metrics.isEmpty then 0
  else
    let scores := cs.metrics.map (fun m => m.calculate q c)
    match cs.strategy with
    | .Maximum => scores.foldl (fun acc s => max acc s) 0
    | .Average =>
        if scores.isEmpty then 0 else sumBy (fun x => x) scores / (scores.length : ℚ)
    | .Fallback t =>
        match scores.find? (fun s => decide (t ≤ s)) with
        | some s => s
        | none => (scores.getLast?).getD 0
    | .Weighted ws => weightedByPosition scores ws

/-! The scorer world: src/core.rs and src/weighted.rs. -/

/-- `trait Scorer` of src/core.rs, as a record of its two methods
(`exact` defaults to `score >= 0.9999`, see `defaultExact`). -/
structure Scorer (Q C : Type) where
  score : Q → C → ℚ
  exact : Q → C → Bool

/-- The default body of `Scorer::exact` (src/core.rs lines 6-8). -/
def defaultExact {Q C : Type} (score : Q → C → ℚ) : Q → C → Bool :=
  fun q c => decide (9999 / 10000 ≤ score q c)

/-- `struct Weight` of src/core.rs. -/
structure Weight where
  value : ℚ
  name : String

/-- `struct Weighted` of src/weighted.rs. -/
structure Weighted (Q C : Type) where
  scorer : Scorer Q C
  weight : Weight

/-- `impl Scorer for Weighted` (src/weighted.rs lines 41-52): `score`
multiplies the wrapped score by the weight, `exact` delegates to the
wrapped scorer's `exact` and ignores the weight. -/
def Weighted.toScorer {Q C : Type} (w : Weighted Q C) : Scorer Q C :=
  { score := fun q c => w.scorer.score q c * w.weight.value
    exact := fun q c => w.scorer.exact q c }

/-! Concrete instances used by the witnesses and counterexamples. -/

/-- A resembler that always reports `Perfect`. -/
def perfectResembler : Unit → Unit → Except Unit Resemblance :=
  fun _ _ => .ok .Perfect

/-- One perfect dimension under a floor of 6/5 (> 1): the builder does
not clamp `floor`, `Assessor::new().floor(1.2)` is expressible. -/
def assessorC1 : Assessor Unit Unit Unit :=
  ⟨[Dimension.new perfectResembler 1], 6 / 5⟩

/-- The same perfect dimension under the in-range floor 2/5. -/
def assessorC1b : Assessor Unit Unit Unit :=
  ⟨[Dimension.new perfectResembler 1], 2 / 5⟩

/-- Resembler over natural-number candidates: 1 ↦ 1/2, all others ↦ 3/4
(so candidates 2 and 3 tie at the maximum). -/
def tieResembler : Unit → ℕ → Except Unit Resemblance :=
  fun _ n => .ok (Resemblance.fromF64 (if n = 1 then 1 / 2 else 3 / 4))

/-- Assessor used by the ranking witnesses: one dimension, floor 2/5. -/
def assessorRank : Assessor Unit ℕ Unit :=
  ⟨[Dimension.new tieResembler 1], 2 / 5⟩

/-- A resembler that always fails. -/
def errResembler : Unit → Unit → Except String Resemblance :=
  fun _ _ => .error "boom"

/-- A resembler that always reports `Partial (1/2)`. -/
def halfResembler : Unit → Unit → Except String Resemblance :=
  fun _ _ => .ok (.Partial (1 / 2))

/-- A failing dimension next to a healthy sibling, floor 2/5. -/
def assessorC3 : Assessor Unit Unit String :=
  ⟨[Dimension.new errResembler 1, Dimension.new halfResembler 1], 2 / 5⟩

/-- First sub-matcher metric: candidate 1 scores 9/10, others 8/10. -/
def metricM1 : Metric Unit ℕ :=
  Metric.ofCalculate "m1" (fun _ n => if n = 1 then 9 / 10 else 8 / 10)

/-- Second sub-matcher metric: candidate 1 scores 7/10, others 0. -/
def metricM2 : Metric Unit ℕ :=
  Metric.ofCalculate "m2" (fun _ n => if n = 1 then 7 / 10 else 0)

/-- Sub-matcher around `metricM1`, threshold 1/2. -/
def matcherM1 : Matcher Unit ℕ := ⟨[(metricM1, 1)], 1 / 2⟩

/-- Sub-matcher around `metricM2`, threshold 1/2. -/
def matcherM2 : Matcher Unit ℕ := ⟨[(metricM2, 1)], 1 / 2⟩

/-- The multi-matcher of the `find_matches` counterexample. -/
def multiEx : MultiMatcher Unit ℕ := ⟨[matcherM1, matcherM2], 2 / 5⟩

/-- A scorer that always returns 1 and keeps the default `exact`. -/
def oneScorer : Scorer Unit Unit :=
  ⟨fun _ _ => 1, defaultExact (fun _ _ => 1)⟩

/-! Lemmas about the stable descending sort. -/

theorem mem_orderedInsertGe {α : Type} (k : α → ℚ) (x : α) (l : List α) (y : α) :
    y ∈ orderedInsertGe k x l ↔ y = x ∨ y ∈ l := by
  induction l with
  | nil => simp [orderedInsertGe]
  | cons a l ih =>
      simp only [orderedInsertGe]
      split
      · simp [List.mem_cons]
      · simp only [List.mem_cons, ih]
        tauto

theorem length_orderedInsertGe {α : Type} (k : α → ℚ) (x : α) (l : List α) :
    (orderedInsertGe k x l).length = l.length + 1 := by
  induction l with
  | nil => rfl
  | cons a l ih =>
      simp only [orderedInsertGe]
      split
      · rfl
      · simp [ih]

theorem length_sortDescBy {α : Type} (k : α → ℚ) (l : List α) :
    (sortDescBy k l).length = l.length := by
  induction l with
  | nil => rfl
  | cons a l ih => simp [sortDescBy, length_orderedInsertGe, ih]

theorem sortDescBy_eq_nil_iff {α : Type} (k : α → ℚ) (l : List α) :
    sortDescBy k l = [] ↔ l = [] := by
  constructor
  · intro h
    have hlen := length_sortDescBy k l
    rw [h] at hlen
    exact List.length_eq_zero.mp hlen.symm
  · intro h
    rw [h]
    rfl

theorem mem_sortDescBy {α : Type} (k : α → ℚ) (l : List α) (y : α) :
    y ∈ sortDescBy k l ↔ y ∈ l := by
  induction l with
  | nil => simp [sortDescBy]
  | cons a l ih => simp [sortDescBy, mem_orderedInsertGe, ih]

theorem pairwise_orderedInsertGe {α : Type} (k : α → ℚ) (x : α) (l : List α)
    (h : l.Pairwise (fun p q => k q ≤ k p)) :
    (orderedInsertGe k x l).Pairwise (fun p q => k q ≤ k p) := by
  induction l with
  | nil => simp [orderedInsertGe]
  | cons a l ih =>
      rcases List.pairwise_cons.mp h with ⟨ha, hl⟩
      simp only [orderedInsertGe]
      split
      · rename_i hax
        refine List.pairwise_cons.mpr ⟨?_, h⟩
        intro b hb
        rcases List.mem_cons.mp hb with rfl | hb
        · exact hax
        · exact le_trans (ha b hb) hax
      · rename_i hax
        refine List.pairwise_cons.mpr ⟨?_, ih hl⟩
        intro b hb
        rcases (mem_orderedInsertGe k x l b).mp hb with rfl | hb
        · exact le_of_lt (not_le.mp hax)
        · exact ha b hb

theorem sortDescBy_sorted {α : Type} (k : α → ℚ) (l : List α) :
    (sortDescBy k l).Pairwise (fun p q => k q ≤ k p) := by
  induction l with
  | nil => simp [sortDescBy]
  | cons a l ih => exact pairwise_orderedInsertGe k a _ ih

theorem filter_orderedInsertGe {α : Type} (k : α → ℚ) (x : α) (l : List α) (v : ℚ) :
    (orderedInsertGe k x l).filter (fun y => decide (k y = v)) =
      if k x = v then x :: l.filter (fun y => decide (k y = v))
      else l.filter (fun y => decide (k y = v)) := by
  induction l with
  | nil =>
      by_cases hxv : k x = v <;> simp [orderedInsertGe, List.filter, hxv]
  | cons a l ih =>
      simp only [orderedInsertGe]
      split
      · rename_i hax
        by_cases hxv : k x = v <;> simp [List.filter_cons, hxv]
      · rename_i hax
        by_cases hxv : k x = v
        · have hanv : ¬(k a = v) := by
            intro hav
            exact hax (le_of_eq (hav.trans hxv.symm))
          simp [List.filter_cons, hanv, ih, hxv]
        · by_cases hav : k a = v <;> simp [List.filter_cons, hav, ih, hxv]

theorem filter_sortDescBy {α : Type} (k : α → ℚ) (l : List α) (v : ℚ) :
    (sortDescBy k l).filter (fun y => decide (k y = v)) =
      l.filter (fun y => decide (k y = v)) := by
  induction l with
  | nil => rfl
  | cons a l ih =>
      rw [sortDescBy, filter_orderedInsertGe]
      by_cases hav : k a = v <;> simp [List.filter_cons, hav, ih]

/-! Lemmas about the first-encountered maximum. -/

theorem firstMaxStep_some {α : Type} (k : α → ℚ) (b x : α) :
    firstMaxStep k (some b) x = some (if k b < k x then x else b) := by
  by_cases h : k b < k x <;> simp [firstMaxStep, h]

theorem foldl_firstMaxStep_some {α : Type} (k : α → ℚ) (l : List α) (b : α) :
    l.foldl (firstMaxStep k) (some b) =
      match firstMax k l with
      | none => some b
      | some m => if k b < k m then some m else some b := by
  induction l generalizing b with
  | nil => rfl
  | cons x l ih =>
      have hfm : firstMax k (x :: l) = l.foldl (firstMaxStep k) (some x) := by
        simp [firstMax, firstMaxStep]
      have hL : (x :: l).foldl (firstMaxStep k) (some b) =
          l.foldl (firstMaxStep k) (some (if k b < k x then x else b)) := by
        rw [List.foldl_cons, firstMaxStep_some]
      rw [hL, ih, hfm, ih]
      rcases hfl : firstMax k l with _ | m
      · by_cases h1 : k b < k x <;> simp [h1]
      · by_cases h1 : k b < k x <;> by_cases h2 : k x < k m <;>
          simp only [h1, h2, if_pos, if_neg, ite_true, ite_false] <;>
          split_ifs <;> first | rfl | (exfalso; linarith)

theorem firstMax_cons {α : Type} (k : α → ℚ) (x : α) (l : List α) :
    firstMax k (x :: l) =
      match firstMax k l with
      | none => some x
      | some m => if k x < k m then some m else some x := by
  have : firstMax k (x :: l) = l.foldl (firstMaxStep k) (some x) := by
    simp [firstMax, firstMaxStep]
  rw [this, foldl_firstMaxStep_some]

theorem firstMax_eq_none_iff {α : Type} (k : α → ℚ) (l : List α) :
    firstMax k l = none ↔ l = [] := by
  cases l with
  | nil => simp [firstMax]
  | cons x l =>
      rw [firstMax_cons]
      rcases firstMax k l with _ | m
      · simp
      · by_cases h : k x < k m <;> simp [h]

theorem head?_sortDescBy {α : Type} (k : α → ℚ) (l : List α) :
    (sortDescBy k l).head? = firstMax k l := by
  induction l with
  | nil => rfl
  | cons a l ih =>
      rw [firstMax_cons]
      rcases hsl : sortDescBy k l with _ | ⟨y, ys⟩
      · have h0 : firstMax k l = none := by rw [← ih, hsl]; rfl
        rw [h0]
        have hnil : l = [] := (sortDescBy_eq_nil_iff k l).mp hsl
        subst hnil
        rfl
      · have hy : firstMax k l = some y := by rw [← ih, hsl]; rfl
        rw [hy]
        show (orderedInsertGe k a (sortDescBy k l)).head? = _
        rw [hsl]
        simp only [orderedInsertGe]
        split
        · rename_i h
          rw [if_neg (not_lt.mpr h)]
          rfl
        · rename_i h
          rw [if_pos (not_le.mp h)]
          rfl

theorem firstMax_le {α : Type} (k : α → ℚ) (l : List α) (m : α)
    (h : firstMax k l = some m) : ∀ x ∈ l, k x ≤ k m := by
  induction l generalizing m with
  | nil => simp [firstMax] at h
  | cons a l ih =>
      rw [firstMax_cons] at h
      rcases hfl : firstMax k l with _ | m'
      · rw [hfl] at h
        cases h
        intro x hx
        have hnil : l = [] := (firstMax_eq_none_iff k l).mp hfl
        subst hnil
        rcases List.mem_cons.mp hx with rfl | hx
        · exact le_refl _
        · cases hx
      · rw [hfl] at h
        dsimp only at h
        intro x hx
        by_cases hc : k a < k m'
        · rw [if_pos hc] at h
          cases h
          rcases List.mem_cons.mp hx with rfl | hx
          · exact le_of_lt hc
          · exact ih m hfl x hx
        · rw [if_neg hc] at h
          cases h
          rcases List.mem_cons.mp hx with rfl | hx
          · exact le_refl _
          · exact le_trans (ih m' hfl x hx) (not_lt.mp hc)

theorem firstMax_find? {α : Type} (k : α → ℚ) (l : List α) (m : α)
    (h : firstMax k l = some m) :
    l.find? (fun x => decide (k x = k m)) = some m := by
  induction l generalizing m with
  | nil => simp [firstMax] at h
  | cons a l ih =>
      rw [firstMax_cons] at h
      rcases hfl : firstMax k l with _ | m'
      · rw [hfl] at h
        cases h
        simp [List.find?]
      · rw [hfl] at h
        dsimp only at h
        by_cases hc : k a < k m'
        · rw [if_pos hc] at h
          cases h
          have hane : ¬(k a = k m) := by
            intro he
            rw [he] at hc
            exact lt_irrefl _ hc
          rw [List.find?_cons_of_neg _ (by simpa using hane)]
          exact ih m hfl
        · rw [if_neg hc] at h
          cases h
          rw [List.find?_cons_of_pos _ (by simp)]

/-! Lemmas about the champion fold. -/

theorem championStep_not_viable {Q C E : Type} (f : ℚ)
    (st : Option (Profile Q C E) × ℚ) (p : Profile Q C E)
    (h : ¬ p.viable f = true) : championStep f st p = st := by
  simp [championStep, h]

theorem foldl_championStep_filter {Q C E : Type} (f : ℚ) (l : List (Profile Q C E))
    (st : Option (Profile Q C E) × ℚ) :
    l.foldl (championStep f) st =
      (l.filter (fun p => p.viable f)).foldl (championStep f) st := by
  induction l generalizing st with
  | nil => rfl
  | cons p l ih =>
      by_cases hv : p.viable f = true
      · rw [List.filter_cons_of_pos (by simpa using hv), List.foldl_cons, List.foldl_cons, ih]
      · rw [List.filter_cons_of_neg (by simpa using hv), List.foldl_cons,
          championStep_not_viable f st p hv, ih]

theorem foldl_championStep_viable {Q C E : Type} (f : ℚ) (l : List (Profile Q C E))
    (hv : ∀ p ∈ l, p.viable f = true) (b : Profile Q C E) :
    (l.foldl (championStep f) (some b, keyP b)).1 =
      l.foldl (firstMaxStep keyP) (some b) := by
  induction l generalizing b with
  | nil => rfl
  | cons p l ih =>
      have hp : p.viable f = true := hv p (List.mem_cons_self p l)
      have hv' : ∀ x ∈ l, x.viable f = true := fun x hx => hv x (List.mem_cons_of_mem p hx)
      by_cases hc : keyP b < keyP p
      · have h1 : championStep f (some b, keyP b) p = (some p, keyP p) := by
          simp [championStep, hp, hc]
        have h2 : firstMaxStep keyP (some b) p = some p := by
          simp [firstMaxStep, hc]
        rw [List.foldl_cons, List.foldl_cons, h1, h2]
        exact ih hv' p
      · have h1 : championStep f (some b, keyP b) p = (some b, keyP b) := by
          simp [championStep, hp, hc]
        have h2 : firstMaxStep keyP (some b) p = some b := by
          simp [firstMaxStep, hc]
        rw [List.foldl_cons, List.foldl_cons, h1, h2]
        exact ih hv' b

theorem foldl_championStep_start {Q C E : Type} (f : ℚ) (l : List (Profile Q C E))
    (hv : ∀ p ∈ l, p.viable f = true) (hn : ∀ p ∈ l, 0 ≤ keyP p) :
    (l.foldl (championStep f) (none, -1)).1 = firstMax keyP l := by
  cases l with
  | nil => rfl
  | cons p l =>
      have hp : p.viable f = true := hv p (List.mem_cons_self p l)
      have hk : (-1 : ℚ) < keyP p :=
        lt_of_lt_of_le (by norm_num) (hn p (List.mem_cons_self p l))
      have h1 : championStep f (none, -1) p = (some p, keyP p) := by
        simp [championStep, hp, hk]
      have h2 : firstMax keyP (p :: l) = l.foldl (firstMaxStep keyP) (some p) := by
        simp [firstMax, firstMaxStep]
      rw [List.foldl_cons, h1, h2]
      exact foldl_championStep_viable f l
        (fun x hx => hv x (List.mem_cons_of_mem p hx)) p

theorem champion_eq_firstMax {Q C E : Type} (a : Assessor Q C E) (q : Q) (cs : List C)
    (hnn : ∀ c ∈ cs, 0 ≤ keyP (a.profile q c)) :
    a.champion q cs = firstMax keyP (a.viableProfiles q cs) := by
  show ((cs.map (a.profile q)).foldl (championStep a.floor) (none, -1)).1 = _
  rw [foldl_championStep_filter]
  apply foldl_championStep_start
  · intro p hp
    exact (List.mem_filter.mp hp).2
  · intro p hp
    rcases List.mem_map.mp (List.mem_filter.mp hp).1 with ⟨c, hc, rfl⟩
    exact hnn c hc

/-! Lemmas about `dedupAdj`. -/

theorem dedupAdjAux_sublist {α β : Type} [DecidableEq β] (k : α → β) (p : α)
    (l : List α) : List.Sublist (dedupAdjAux k p l) l := by
  induction l generalizing p with
  | nil => simp [dedupAdjAux]
  | cons b rest ih =>
      simp only [dedupAdjAux]
      split
      · exact (ih p).trans (List.sublist_cons_self b rest)
      · exact List.Sublist.cons₂ b (ih b)

theorem dedupAdj_sublist {α β : Type} [DecidableEq β] (k : α → β) (l : List α) :
    List.Sublist (dedupAdj k l) l := by
  cases l with
  | nil => simp [dedupAdj]
  | cons a rest => exact List.Sublist.cons₂ a (dedupAdjAux_sublist k a rest)

theorem chain'_dedupAdjAux {α β : Type} [DecidableEq β] (k : α → β) (p : α)
    (l : List α) :
    List.Chain' (fun x y => k x ≠ k y) (p :: dedupAdjAux k p l) := by
  induction l generalizing p with
  | nil => simp [dedupAdjAux]
  | cons b rest ih =>
      simp only [dedupAdjAux]
      split
      · exact ih p
      · rename_i hne
        rw [List.chain'_cons]
        exact ⟨fun h => hne (h.symm), ih b⟩

theorem chain'_dedupAdj {α β : Type} [DecidableEq β] (k : α → β) (l : List α) :
    List.Chain' (fun x y => k x ≠ k y) (dedupAdj k l) := by
  cases l with
  | nil => simp [dedupAdj]
  | cons a rest => exact chain'_dedupAdjAux k a rest

/-! Fold/append and sum lemmas. -/

theorem mem_foldl_append {α β : Type} (f : β → List α) (l : List β)
    (init : List α) (x : α) :
    x ∈ l.foldl (fun acc m => acc ++ f m) init ↔ x ∈ init ∨ ∃ m ∈ l, x ∈ f m := by
  induction l generalizing init with
  | nil => simp
  | cons m l ih =>
      rw [List.foldl_cons, ih]
      simp only [List.mem_append, List.mem_cons]
      constructor
      · rintro ((h | h) | ⟨m', hm', hx⟩)
        · exact Or.inl h
        · exact Or.inr ⟨m, Or.inl rfl, h⟩
        · exact Or.inr ⟨m', Or.inr hm', hx⟩
      · rintro (h | ⟨m', (rfl | hm'), hx⟩)
        · exact Or.inl (Or.inl h)
        · exact Or.inl (Or.inr hx)
        · exact Or.inr ⟨m', hm', hx⟩

theorem foldl_add_eq {α : Type} (f : α → ℚ) (l : List α) (a : ℚ) :
    l.foldl (fun acc x => acc + f x) a = a + sumBy f l := by
  induction l generalizing a with
  | nil => simp [sumBy]
  | cons x l ih =>
      show l.foldl _ (a + f x) = a + sumBy f (x :: l)
      have h2 : sumBy f (x :: l) = (0 + f x) + sumBy f l := by
        show l.foldl _ (0 + f x) = _
        rw [ih]
      rw [ih, h2]
      ring

theorem sumBy_eq_sum_map {α : Type} (f : α → ℚ) (l : List α) :
    sumBy f l = (l.map f).sum := by
  induction l with
  | nil => rfl
  | cons x l ih =>
      show l.foldl _ (0 + f x) = _
      rw [foldl_add_eq, ih, List.map_cons, List.sum_cons]
      ring

theorem sumBy_nonneg {α : Type} (f : α → ℚ) (l : List α)
    (h : ∀ x ∈ l, 0 ≤ f x) : 0 ≤ sumBy f l := by
  rw [sumBy_eq_sum_map]
  apply List.sum_nonneg
  intro v hv
  rcases List.mem_map.mp hv with ⟨x, hx, rfl⟩
  exact h x hx

theorem sumBy_zip_mul (rs ws : List ℚ) :
    sumBy (fun p => p.1 * p.2) (rs.zip ws) =
      (List.zipWith (fun r w => r * w) rs ws).sum := by
  rw [sumBy_eq_sum_map]
  congr 1
  induction rs generalizing ws with
  | nil => simp
  | cons r rs ih => cases ws <;> simp [ih]

/-! `FVal` fold lemmas. -/

theorem FVal.le_refl (x : FVal) : FVal.le x x := by
  cases x <;> simp [FVal.le]

theorem FVal.leTrans {x y z : FVal} (h1 : FVal.le x y) (h2 : FVal.le y z) :
    FVal.le x z := by
  cases x <;> cases y <;> cases z <;>
    first
      | exact le_trans h1 h2
      | trivial

theorem fmin_le_right (x : FVal) (r : ℚ) : FVal.le (x.fmin (.fin r)) (.fin r) := by
  cases x <;> simp [FVal.fmin, FVal.le, min_le_right, le_refl]

theorem fmin_le_left (x : FVal) (r : ℚ) : FVal.le (x.fmin (.fin r)) x := by
  cases x <;> simp [FVal.fmin, FVal.le, min_le_left]

theorem foldl_fmin_le_init (l : List ℚ) (init : FVal) :
    FVal.le (l.foldl (fun acc r => acc.fmin (.fin r)) init) init := by
  induction l generalizing init with
  | nil => exact FVal.le_refl init
  | cons r l ih =>
      exact FVal.leTrans (ih (init.fmin (.fin r))) (fmin_le_left init r)

theorem foldl_fmin_le_mem (l : List ℚ) (init : FVal) (r : ℚ) (h : r ∈ l) :
    FVal.le (l.foldl (fun acc x => acc.fmin (.fin x)) init) (.fin r) := by
  induction l generalizing init with
  | nil => cases h
  | cons x l ih =>
      rcases List.mem_cons.mp h with rfl | h
      · exact FVal.leTrans (foldl_fmin_le_init l (init.fmin (.fin r)))
          (fmin_le_right init r)
      · exact ih (init.fmin (.fin x)) h

theorem le_foldl_max_init (l : List ℚ) (init : ℚ) :
    init ≤ l.foldl (fun acc r => max acc r) init := by
  induction l generalizing init with
  | nil => exact le_refl init
  | cons x l ih => exact le_trans (le_max_left init x) (ih (max init x))

theorem foldl_max_ge_mem (l : List ℚ) (init r : ℚ) (h : r ∈ l) :
    r ≤ l.foldl (fun acc x => max acc x) init := by
  induction l generalizing init with
  | nil => cases h
  | cons x l ih =>
      rcases List.mem_cons.mp h with rfl | h
      · exact le_trans (le_max_right init r) (le_foldl_max_init l (max init r))
      · exact ih (max init x) h

/-! Claim theorems. -/

/-- C10: converting any f64 value into a `Resemblance` (0 ↦ Disparity,
1 ↦ Perfect, anything else ↦ Partial) and projecting back through
`to_f64` is the identity. -/
theorem resemblance_roundtrip : ∀ f : ℚ, (Resemblance.fromF64 f).to_f64 = f := by
  intro f
  unfold Resemblance.fromF64
  by_cases h0 : f = 0
  · simp [h0, Resemblance.to_f64]
  · by_cases h1 : f = 1
    · simp [h0, h1, Resemblance.to_f64]
    · simp [h0, h1, Resemblance.to_f64]

/-- C1 counterexample: with the perfectly-resembling dimension and the
configured floor 6/5 (the builder does not clamp the floor), the
profile is `Perfect` yet `Assessor::viable` is false — the code has no
perfect-override, viability is the purely numeric test
`to_f64 >= floor`. -/
theorem perfect_not_viable_above_one :
    (assessorC1.profile () ()).resemblance = Resemblance.Perfect ∧
    assessorC1.viable () () = false := by
  constructor
  · simp [Assessor.profile, assessorC1, Dimension.assess, Dimension.new, perfectResembler,
      sumBy, Resemblance.to_f64, Resemblance.fromF64]
  · simp [Assessor.viable, Profile.viable, Assessor.profile, assessorC1, Dimension.assess,
      Dimension.new, perfectResembler, sumBy, Resemblance.to_f64, Resemblance.fromF64]
    norm_num

/-- C1 amended: `viable` is exactly the numeric test
`floor ≤ resemblance.to_f64`; whenever the floor is at most 1 this
coincides with "perfect OR resemblance ≥ floor" (so a perfect profile
is then always viable), but there is no perfect-override beyond the
numeric projection: a floor above 1 rejects even a perfect profile. -/
theorem viable_iff_of_floor_le_one {Q C E : Type} (a : Assessor Q C E) (q : Q)
    (c : C) (hf : a.floor ≤ 1) :
    a.viable q c = true ↔
      ((a.profile q c).resemblance = Resemblance.Perfect ∨
        a.floor ≤ keyP (a.profile q c)) := by
  show ((a.profile q c).viable a.floor = true) ↔ _
  rw [Profile.viable, decide_eq_true_iff]
  constructor
  · intro h
    exact Or.inr h
  · rintro (h | h)
    · show a.floor ≤ (a.profile q c).resemblance.to_f64
      rw [h]
      exact hf
    · exact h

/-- C1 amended, witness at the in-range floor 2/5. -/
theorem viable_iff_of_floor_le_one_witness :
    assessorC1b.floor ≤ 1 ∧
    (assessorC1b.viable () () = true ↔
      ((assessorC1b.profile () ()).resemblance = Resemblance.Perfect ∨
        assessorC1b.floor ≤ keyP (assessorC1b.profile () ()))) :=
  ⟨by norm_num [assessorC1b], viable_iff_of_floor_le_one assessorC1b () ()
    (by norm_num [assessorC1b])⟩

/-- C5 counterexample: an empty dimension set does NOT yield aggregate
resemblance 0 for every blending scheme — under the `Minimum` blender
the fold starts at `f64::INFINITY` so the blend reports `Perfect`
(numeric 1), and under `Product` the empty product is 1, also
`Perfect`. -/
theorem empty_blend_not_zero :
    (Blend.minimum ([] : List (Dimension Unit Unit Unit))).resemblance () () =
      Except.ok Resemblance.Perfect ∧
    (Blend.product ([] : List (Dimension Unit Unit Unit))).resemblance () () =
      Except.ok Resemblance.Perfect ∧
    Resemblance.Perfect.to_f64 ≠ 0 := by
  refine ⟨rfl, rfl, ?_⟩
  norm_num [Resemblance.to_f64]

/-- C5 amended: divisions by zero are guarded (the `Weighted` blender,
the composite aggregation and the assessor aggregate all resolve a
non-positive total weight to 0) and the empty dimension set yields 0
under `Weighted` and `Maximum`, an empty composite yields 0 and an
assessor without dimensions yields `Disparity`; but the `Minimum`
blender on an empty set yields `f64::INFINITY` and the `Product`
blender yields 1, so those two schemes do not return 0 on an empty
dimension set. -/
theorem blend_empty_and_zero_guard :
    (∀ ws : List ℚ, Blender.compute .Weighted [] ws = .fin 0) ∧
    (∀ rs ws : List ℚ, sumBy id ws ≤ 0 → Blender.compute .Weighted rs ws = .fin 0) ∧
    (∀ ws : List ℚ, Blender.compute .Maximum [] ws = .fin 0) ∧
    (∀ ws : List ℚ, Blender.compute .Minimum [] ws = .inf) ∧
    (∀ ws : List ℚ, Blender.compute .Product [] ws = .fin 1) ∧
    (∀ (Q C : Type) (q : Q) (c : C) (i : String) (st : CompositeStrategy),
      (CompositeSimilarity.mk i [] st).calculate q c = 0) ∧
    (∀ scores ws : List ℚ,
      sumBy id ((List.range scores.length).map (fun i => ws.getD i 1)) ≤ 0 →
      weightedByPosition scores ws = 0) ∧
    (∀ (Q C E : Type) (q : Q) (c : C) (floor : ℚ),
      ((Assessor.mk ([] : List (Dimension Q C E)) floor).profile q c).resemblance =
        Resemblance.Disparity) := by
  refine ⟨?_, ?_, ?_, ?_, ?_, ?_, ?_, ?_⟩
  · intro ws
    show FVal.fin (if 0 < sumBy id ws
        then sumBy (fun p => p.1 * p.2) (List.zip ([] : List ℚ) ws) / sumBy id ws
        else 0) = FVal.fin 0
    congr 1
    have hz : sumBy (fun p : ℚ × ℚ => p.1 * p.2) (List.zip ([] : List ℚ) ws) = 0 := rfl
    rw [hz]
    split
    · exact zero_div _
    · rfl
  · intro rs ws h
    show FVal.fin _ = _
    congr 1
    rw [if_neg (not_lt.mpr h)]
  · intro ws
    rfl
  · intro ws
    rfl
  · intro ws
    rfl
  · intro Q C q c i st
    rfl
  · intro scores ws h
    unfold weightedByPosition
    rw [if_neg (not_lt.mpr h)]
  · intro Q C E q c floor
    simp [Assessor.profile, sumBy, Resemblance.fromF64]

/-- C5 amended, witness at concrete inputs. -/
theorem blend_empty_and_zero_guard_witness :
    Blender.compute .Weighted [] [] = .fin 0 ∧
    (sumBy id ([0, 0] : List ℚ) ≤ 0 →
      Blender.compute .Weighted [1, 1] [0, 0] = .fin 0) ∧
    Blender.compute .Maximum [] [] = .fin 0 ∧
    Blender.compute .Minimum [] [] = .inf ∧
    Blender.compute .Product [] [] = .fin 1 ∧
    (CompositeSimilarity.mk "empty" ([] : List (Metric Unit Unit))
      CompositeStrategy.Maximum).calculate () () = 0 ∧
    (sumBy id ((List.range ([0, 0] : List ℚ).length).map
        (fun i => ([(-1 : ℚ), -1] : List ℚ).getD i 1)) ≤ 0 →
      weightedByPosition [0, 0] [-1, -1] = 0) ∧
    ((Assessor.mk ([] : List (Dimension Unit Unit Unit)) (2 / 5)).profile () ()).resemblance =
      Resemblance.Disparity := by
  obtain ⟨h1, h2, h3, h4, h5, h6, h7, h8⟩ := blend_empty_and_zero_guard
  exact ⟨h1 [], fun hw => h2 [1, 1] [0, 0] hw, h3 [], h4 [], h5 [],
    h6 Unit Unit () () "empty" CompositeStrategy.Maximum,
    fun hw => h7 [0, 0] [-1, -1] hw, h8 Unit Unit Unit () () (2 / 5)⟩

/-- C8: the `Minimum` blender's output is ≤ every individual dimension
resemblance and the `Maximum` blender's output is ≥ every individual
dimension resemblance, for all inputs. -/
theorem minimum_le_maximum_ge (rs ws : List ℚ) (r : ℚ) (hr : r ∈ rs) :
    FVal.le (Blender.compute .Minimum rs ws) (.fin r) ∧
    FVal.le (.fin r) (Blender.compute .Maximum rs ws) := by
  constructor
  · exact foldl_fmin_le_mem rs .inf r hr
  · show FVal.le (.fin r) (.fin (rs.foldl (fun acc x => max acc x) 0))
    show r ≤ rs.foldl (fun acc x => max acc x) 0
    exact foldl_max_ge_mem rs 0 r hr

/-- C8 witness at `rs = [1/2, 1/4]`, `r = 1/4`. -/
theorem minimum_le_maximum_ge_witness :
    (1 / 4 : ℚ) ∈ ([1 / 2, 1 / 4] : List ℚ) ∧
    (FVal.le (Blender.compute .Minimum [1 / 2, 1 / 4] [1, 1]) (.fin (1 / 4)) ∧
      FVal.le (.fin (1 / 4)) (Blender.compute .Maximum [1 / 2, 1 / 4] [1, 1])) :=
  ⟨by norm_num, minimum_le_maximum_ge [1 / 2, 1 / 4] [1, 1] (1 / 4) (by norm_num)⟩

/-- C9 counterexample: for the weight 19999/20000 < 1 around a scorer
returning 1.0 with the default exactness, `exact` is true but the
wrapper's own score 19999/20000 is NOT below the 0.9999 exactness
cutoff, contradicting the claim's consequence for every weight < 1. -/
theorem weighted_exact_cutoff_counterexample :
    (Weighted.mk oneScorer ⟨19999 / 20000, "w"⟩).toScorer.exact () () = true ∧
    (Weighted.mk oneScorer ⟨19999 / 20000, "w"⟩).toScorer.score () () = 19999 / 20000 ∧
    (19999 / 20000 : ℚ) < 1 ∧
    ¬ ((19999 / 20000 : ℚ) < 9999 / 10000) := by
  refine ⟨?_, ?_, by norm_num, by norm_num⟩
  · simp [Weighted.toScorer, oneScorer, defaultExact]
    norm_num
  · show (1 : ℚ) * (19999 / 20000) = 19999 / 20000
    norm_num

/-- C9 amended: the wrapper's `exact` delegates to the wrapped scorer's
`exact` (ignoring the weight) and its `score` multiplies the raw score
by the weight; consequently, for a wrapper whose weight is below the
0.9999 cutoff around a scorer returning 1.0 with the default
exactness, `exact` is true even though the wrapper's own score is
below the cutoff. -/
theorem weighted_exact_delegates {Q C : Type} (s : Scorer Q C) (w : Weight)
    (q : Q) (c : C) :
    ((Weighted.mk s w).toScorer.exact q c = s.exact q c) ∧
    ((Weighted.mk s w).toScorer.score q c = s.score q c * w.value) ∧
    (s.score q c = 1 → s.exact q c = defaultExact s.score q c →
      w.value < 9999 / 10000 →
      (Weighted.mk s w).toScorer.exact q c = true ∧
      (Weighted.mk s w).toScorer.score q c < 9999 / 10000) := by
  refine ⟨rfl, rfl, ?_⟩
  intro h1 hdef hw
  constructor
  · show s.exact q c = true
    rw [hdef, defaultExact, h1]
    norm_num
  · show s.score q c * w.value < 9999 / 10000
    rw [h1, one_mul]
    exact hw

/-- C9 amended, witness at `oneScorer` and weight 1/2. -/
theorem weighted_exact_delegates_witness :
    ((Weighted.mk oneScorer ⟨1 / 2, "w"⟩).toScorer.exact () () = oneScorer.exact () ()) ∧
    ((Weighted.mk oneScorer ⟨1 / 2, "w"⟩).toScorer.score () () = oneScorer.score () () * (1 / 2)) ∧
    (oneScorer.score () () = 1 → oneScorer.exact () () = defaultExact oneScorer.score () () →
      (1 / 2 : ℚ) < 9999 / 10000 →
      (Weighted.mk oneScorer ⟨1 / 2, "w"⟩).toScorer.exact () () = true ∧
      (Weighted.mk oneScorer ⟨1 / 2, "w"⟩).toScorer.score () () < 9999 / 10000) :=
  weighted_exact_delegates oneScorer ⟨1 / 2, "w"⟩ () ()

/-- C6: the `Weighted` (Additive) blender returns exactly the weighted
arithmetic mean Σ(r·w)/Σw and 0 when Σw = 0 (given the documented
invariant that weights are nonnegative), and the matcher's
`calculate_overall_score` does the same over its metric scores. -/
theorem additive_weighted_mean (rs ws : List ℚ) (ms : List MetricScore)
    (hw : ∀ w ∈ ws, 0 ≤ w) (hm : ∀ s ∈ ms, 0 ≤ s.weight) :
    (Blender.compute .Weighted rs ws =
      .fin (if ws.sum = 0 then 0
            else (List.zipWith (fun r w => r * w) rs ws).sum / ws.sum)) ∧
    (Matcher.calculate_overall_score ms =
      if (ms.map (fun s => s.weight)).sum = 0 then 0
      else (ms.map (fun s => s.weighted_score)).sum / (ms.map (fun s => s.weight)).sum) := by
  constructor
  · show FVal.fin (if 0 < sumBy id ws
        then sumBy (fun p => p.1 * p.2) (rs.zip ws) / sumBy id ws
        else 0) = _
    congr 1
    have hsum : sumBy id ws = ws.sum := by
      rw [sumBy_eq_sum_map, List.map_id]
    have hnn : 0 ≤ ws.sum := by
      rw [← hsum]
      exact sumBy_nonneg id ws hw
    rw [hsum, sumBy_zip_mul]
    rcases lt_or_eq_of_le hnn with hpos | hzero
    · rw [if_pos hpos, if_neg (ne_of_gt hpos)]
    · rw [if_neg (by rw [← hzero]; exact lt_irrefl 0), if_pos hzero.symm]
  · show (if 0 < sumBy (fun s => s.weight) ms
        then sumBy (fun s => s.weighted_score) ms / sumBy (fun s => s.weight) ms
        else 0) = _
    have hnn : 0 ≤ sumBy (fun s => s.weight) ms := sumBy_nonneg _ ms hm
    rw [sumBy_eq_sum_map, sumBy_eq_sum_map]
    rw [sumBy_eq_sum_map] at hnn
    rcases lt_or_eq_of_le hnn with hpos | hzero
    · rw [if_pos hpos, if_neg (ne_of_gt hpos)]
    · rw [if_neg (by rw [← hzero]; exact lt_irrefl 0), if_pos hzero.symm]

/-- C6 witness at `rs = [1/2, 1]`, `ws = [3, 1]` and one metric score. -/
theorem additive_weighted_mean_witness :
    (∀ w ∈ ([3, 1] : List ℚ), 0 ≤ w) ∧
    (∀ s ∈ ([⟨"m", 1 / 2, 2, 1⟩] : List MetricScore), 0 ≤ s.weight) ∧
    ((Blender.compute .Weighted [1 / 2, 1] [3, 1] =
      .fin (if ([3, 1] : List ℚ).sum = 0 then 0
            else (List.zipWith (fun r w => r * w) [1 / 2, 1] [3, 1]).sum /
              ([3, 1] : List ℚ).sum)) ∧
    (Matcher.calculate_overall_score [⟨"m", 1 / 2, 2, 1⟩] =
      if (([⟨"m", 1 / 2, 2, 1⟩] : List MetricScore).map (fun s => s.weight)).sum = 0 then 0
      else (([⟨"m", 1 / 2, 2, 1⟩] : List MetricScore).map (fun s => s.weighted_score)).sum /
        (([⟨"m", 1 / 2, 2, 1⟩] : List MetricScore).map (fun s => s.weight)).sum)) := by
  refine ⟨by norm_num, by norm_num, ?_⟩
  exact additive_weighted_mean [1 / 2, 1] [3, 1] [⟨"m", 1 / 2, 2, 1⟩]
    (by norm_num) (by norm_num)

/-- C7: the shortlist is sorted descending by resemblance, every entry
is viable (hence perfect or at least the floor), and for each score
value the entries carrying it appear in input order (the sort is
stable). -/
theorem shortlist_sorted_and_viable {Q C E : Type} (a : Assessor Q C E) (q : Q)
    (cs : List C) :
    (a.shortlist q cs).Pairwise (fun p1 p2 => keyP p2 ≤ keyP p1) ∧
    (∀ p ∈ a.shortlist q cs,
      p.resemblance = Resemblance.Perfect ∨ a.floor ≤ keyP p) ∧
    (∀ v : ℚ, (a.shortlist q cs).filter (fun p => decide (keyP p = v)) =
      (a.viableProfiles q cs).filter (fun p => decide (keyP p = v))) := by
  refine ⟨sortDescBy_sorted keyP _, ?_, fun v => filter_sortDescBy keyP _ v⟩
  intro p hp
  have hp' : p ∈ a.viableProfiles q cs := (mem_sortDescBy keyP _ p).mp hp
  have hv : p.viable a.floor = true := (List.mem_filter.mp hp').2
  right
  exact of_decide_eq_true hv

/-- C7 witness at the concrete ranking assessor. -/
theorem shortlist_sorted_and_viable_witness :
    ((assessorRank.shortlist () [1, 2, 3]).Pairwise
      (fun p1 p2 => keyP p2 ≤ keyP p1)) ∧
    (∀ p ∈ assessorRank.shortlist () [1, 2, 3],
      p.resemblance = Resemblance.Perfect ∨ assessorRank.floor ≤ keyP p) ∧
    (∀ v : ℚ, (assessorRank.shortlist () [1, 2, 3]).filter
        (fun p => decide (keyP p = v)) =
      (assessorRank.viableProfiles () [1, 2, 3]).filter
        (fun p => decide (keyP p = v))) :=
  shortlist_sorted_and_viable assessorRank () [1, 2, 3]

/-- C2: whenever some candidate is viable (and dimension resemblances
respect the documented nonnegativity invariant), `champion` returns
exactly the first element of `shortlist`; moreover the champion is the
first-encountered profile carrying the maximum resemblance among the
viable profiles in input order. -/
theorem champion_eq_shortlist_head {Q C E : Type} (a : Assessor Q C E) (q : Q)
    (cs : List C)
    (hnn : ∀ c ∈ cs, 0 ≤ keyP (a.profile q c))
    (hex : ∃ c ∈ cs, (a.profile q c).viable a.floor = true) :
    a.champion q cs = (a.shortlist q cs).head? ∧
    a.shortlist q cs ≠ [] ∧
    (∀ p, a.champion q cs = some p →
      a.champion q cs =
        (a.viableProfiles q cs).find? (fun x => decide (keyP x = keyP p)) ∧
      ∀ x ∈ a.viableProfiles q cs, keyP x ≤ keyP p) := by
  have hch : a.champion q cs = firstMax keyP (a.viableProfiles q cs) :=
    champion_eq_firstMax a q cs hnn
  have hhead : (a.shortlist q cs).head? = firstMax keyP (a.viableProfiles q cs) :=
    head?_sortDescBy keyP _
  refine ⟨hch.trans hhead.symm, ?_, ?_⟩
  · rcases hex with ⟨c, hc, hv⟩
    intro hnil
    have hempty : a.viableProfiles q cs = [] :=
      (sortDescBy_eq_nil_iff keyP _).mp hnil
    have hmem : a.profile q c ∈ a.viableProfiles q cs :=
      List.mem_filter.mpr ⟨List.mem_map.mpr ⟨c, hc, rfl⟩, by simpa using hv⟩
    rw [hempty] at hmem
    cases hmem
  · intro p hp
    rw [hch] at hp
    constructor
    · rw [hch, hp]
      exact (firstMax_find? keyP _ p hp).symm
    · exact firstMax_le keyP _ p hp

/-- C2 witness: candidates `[1, 2, 3]` under `assessorRank`, where
candidates 2 and 3 tie at the maximum resemblance 3/4. -/
theorem champion_eq_shortlist_head_witness :
    (∀ c ∈ ([1, 2, 3] : List ℕ), 0 ≤ keyP (assessorRank.profile () c)) ∧
    (∃ c ∈ ([1, 2, 3] : List ℕ),
      (assessorRank.profile () c).viable assessorRank.floor = true) ∧
    (assessorRank.champion () [1, 2, 3] =
        (assessorRank.shortlist () [1, 2, 3]).head? ∧
      assessorRank.shortlist () [1, 2, 3] ≠ [] ∧
      (∀ p, assessorRank.champion () [1, 2, 3] = some p →
        assessorRank.champion () [1, 2, 3] =
          (assessorRank.viableProfiles () [1, 2, 3]).find?
            (fun x => decide (keyP x = keyP p)) ∧
        ∀ x ∈ assessorRank.viableProfiles () [1, 2, 3], keyP x ≤ keyP p)) := by
  have hnn : ∀ c ∈ ([1, 2, 3] : List ℕ), 0 ≤ keyP (assessorRank.profile () c) := by
    intro c hc
    simp only [List.mem_cons, List.not_mem_nil, or_false] at hc
    rcases hc with rfl | rfl | rfl <;>
      norm_num [keyP, assessorRank, Assessor.profile, Dimension.assess, Dimension.new,
        tieResembler, sumBy, Resemblance.to_f64, Resemblance.fromF64]
  have hex : ∃ c ∈ ([1, 2, 3] : List ℕ),
      (assessorRank.profile () c).viable assessorRank.floor = true := by
    refine ⟨2, by norm_num, ?_⟩
    norm_num [Profile.viable, assessorRank, Assessor.profile, Dimension.assess,
      Dimension.new, tieResembler, sumBy, Resemblance.to_f64, Resemblance.fromF64]
  exact ⟨hnn, hex, champion_eq_shortlist_head assessorRank () [1, 2, 3] hnn hex⟩

theorem assessSeq_append_error {Q C E : Type} (q : Q) (c : C)
    (ds₁ ds₂ : List (Dimension Q C E)) (d : Dimension Q C E) (e : E)
    (h₁ : ∀ x ∈ ds₁, (x.assess q c).error = none)
    (he : d.resembler q c = Except.error e) :
    assessSeq q c (ds₁ ++ d :: ds₂) = Except.error e := by
  induction ds₁ with
  | nil =>
      have herr : (d.assess q c).error = some e := by
        simp [Dimension.assess, he]
      show assessSeq q c (d :: ds₂) = Except.error e
      simp only [assessSeq, herr]
  | cons x ds₁ ih =>
      have hx : (x.assess q c).error = none := h₁ x (List.mem_cons_self x ds₁)
      have ih' := ih (fun y hy => h₁ y (List.mem_cons_of_mem x hy))
      show assessSeq q c (x :: (ds₁ ++ d :: ds₂)) = Except.error e
      simp only [assessSeq, hx, ih']

theorem blend_resemblance_error {Q C E : Type} (b : Blend Q C E) (q : Q) (c : C)
    (ds₁ ds₂ : List (Dimension Q C E)) (d : Dimension Q C E) (e : E)
    (hb : b.dimensions = ds₁ ++ d :: ds₂)
    (h₁ : ∀ x ∈ ds₁, (x.assess q c).error = none)
    (he : d.resembler q c = Except.error e) :
    b.resemblance q c = Except.error e := by
  unfold Blend.resemblance
  rw [hb, assessSeq_append_error q c ds₁ ds₂ d e h₁ he]

/-- C3: a failing dimension does not abort evaluation — the profile is
still produced, the failed dimension contributes 0 with resemblance
`Disparity` and its error recorded, every dimension's outcome depends
only on its own resembler (siblings are unaffected), the error lands
in the assessor's error list, and a nested blend used as a dimension
behaves the same way: when one of its children fails the blend reports
the error and, wrapped as a dimension, contributes 0 with the error
recorded instead of raising anything. -/
theorem dimension_failure_isolated {Q C E : Type} (a : Assessor Q C E) (q : Q)
    (c : C) (i : ℕ) (e : E) (d : Dimension Q C E)
    (hd : a.dimensions[i]? = some d)
    (herr : d.resembler q c = Except.error e) :
    ((a.profile q c).dimensions[i]? = some (d.assess q c) ∧
      (d.assess q c).contribution = 0 ∧
      (d.assess q c).resemblance = Resemblance.Disparity ∧
      (d.assess q c).error = some e) ∧
    (∀ j : ℕ, (a.profile q c).dimensions[j]? =
      (a.dimensions[j]?).map (Dimension.assess q c)) ∧
    e ∈ a.profileErrors q c ∧
    (∀ (b : Blend Q C E) (w : ℚ),
      b.resemblance q c = Except.error e →
        ((Dimension.new (b.resemblance) w).assess q c).contribution = 0 ∧
        ((Dimension.new (b.resemblance) w).assess q c).resemblance =
          Resemblance.Disparity ∧
        ((Dimension.new (b.resemblance) w).assess q c).error = some e) ∧
    (∀ (b : Blend Q C E) (ds₁ ds₂ : List (Dimension Q C E)) (d' : Dimension Q C E),
      b.dimensions = ds₁ ++ d' :: ds₂ →
      (∀ x ∈ ds₁, (x.assess q c).error = none) →
      d'.resembler q c = Except.error e →
      b.resemblance q c = Except.error e) := by
  have hdims : (a.profile q c).dimensions = a.dimensions.map (Dimension.assess q c) := rfl
  have hmap : ∀ j : ℕ, (a.profile q c).dimensions[j]? =
      (a.dimensions[j]?).map (Dimension.assess q c) := by
    intro j
    rw [hdims, List.getElem?_map]
  refine ⟨⟨?_, ?_, ?_, ?_⟩, hmap, ?_, ?_, ?_⟩
  · rw [hmap i, hd]
    rfl
  · simp [Dimension.assess, herr]
  · simp [Dimension.assess, herr]
  · simp [Dimension.assess, herr]
  · have hmem : d ∈ a.dimensions := by
      have hj : ∃ h : i < a.dimensions.length, a.dimensions[i] = d :=
        List.getElem?_eq_some.mp hd
      rcases hj with ⟨hlt, hget⟩
      rw [← hget]
      exact List.getElem_mem hlt
    show e ∈ (a.dimensions.map (Dimension.assess q c)).filterMap (fun x => x.error)
    apply List.mem_filterMap.mpr
    refine ⟨d.assess q c, List.mem_map.mpr ⟨d, hmem, rfl⟩, ?_⟩
    simp [Dimension.assess, herr]
  · intro b w hberr
    refine ⟨?_, ?_, ?_⟩ <;> simp [Dimension.assess, Dimension.new, hberr]
  · intro b ds₁ ds₂ d' hb h₁ he
    exact blend_resemblance_error b q c ds₁ ds₂ d' e hb h₁ he

/-- C3 witness: the two-dimension assessor whose first dimension always
fails with "boom". -/
theorem dimension_failure_isolated_witness :
    assessorC3.dimensions[0]? = some (Dimension.new errResembler 1) ∧
    (Dimension.new errResembler 1).resembler () () = Except.error "boom" ∧
    (((assessorC3.profile () ()).dimensions[0]? =
        some ((Dimension.new errResembler 1).assess () ()) ∧
      ((Dimension.new errResembler 1).assess () ()).contribution = 0 ∧
      ((Dimension.new errResembler 1).assess () ()).resemblance =
        Resemblance.Disparity ∧
      ((Dimension.new errResembler 1).assess () ()).error = some "boom") ∧
    (∀ j : ℕ, (assessorC3.profile () ()).dimensions[j]? =
      (assessorC3.dimensions[j]?).map (Dimension.assess () ())) ∧
    "boom" ∈ assessorC3.profileErrors () () ∧
    (∀ (b : Blend Unit Unit String) (w : ℚ),
      b.resemblance () () = Except.error "boom" →
        ((Dimension.new (b.resemblance) w).assess () ()).contribution = 0 ∧
        ((Dimension.new (b.resemblance) w).assess () ()).resemblance =
          Resemblance.Disparity ∧
        ((Dimension.new (b.resemblance) w).assess () ()).error = some "boom") ∧
    (∀ (b : Blend Unit Unit String) (ds₁ ds₂ : List (Dimension Unit Unit String))
        (d' : Dimension Unit Unit String),
      b.dimensions = ds₁ ++ d' :: ds₂ →
      (∀ x ∈ ds₁, (x.assess () ()).error = none) →
      d'.resembler () () = Except.error "boom" →
      b.resemblance () () = Except.error "boom")) :=
  ⟨rfl, rfl, dimension_failure_isolated assessorC3 () () 0 "boom"
    (Dimension.new errResembler 1) rfl rfl⟩

theorem dedup_sorted_pipeline {Q C : Type} [DecidableEq C]
    (all : List (MatchResult Q C)) (limit : ℕ) :
    ((if 0 < limit ∧ limit <
          (dedupAdj (fun r => r.candidate)
            (sortDescBy (fun r => r.score) all)).length
        then (dedupAdj (fun r => r.candidate)
          (sortDescBy (fun r => r.score) all)).take limit
        else dedupAdj (fun r => r.candidate)
          (sortDescBy (fun r => r.score) all)).Pairwise
      (fun r1 r2 => r2.score ≤ r1.score)) ∧
    List.Chain' (fun r1 r2 => r1.candidate ≠ r2.candidate)
      (if 0 < limit ∧ limit <
          (dedupAdj (fun r => r.candidate)
            (sortDescBy (fun r => r.score) all)).length
        then (dedupAdj (fun r => r.candidate)
          (sortDescBy (fun r => r.score) all)).take limit
        else dedupAdj (fun r => r.candidate)
          (sortDescBy (fun r => r.score) all)) ∧
    (0 < limit →
      (if 0 < limit ∧ limit <
          (dedupAdj (fun r => r.candidate)
            (sortDescBy (fun r => r.score) all)).length
        then (dedupAdj (fun r => r.candidate)
          (sortDescBy (fun r => r.score) all)).take limit
        else dedupAdj (fun r => r.candidate)
          (sortDescBy (fun r => r.score) all)).length ≤ limit) ∧
    (∀ r ∈ (if 0 < limit ∧ limit <
          (dedupAdj (fun r => r.candidate)
            (sortDescBy (fun r => r.score) all)).length
        then (dedupAdj (fun r => r.candidate)
          (sortDescBy (fun r => r.score) all)).take limit
        else dedupAdj (fun r => r.candidate)
          (sortDescBy (fun r => r.score) all)), r ∈ all) := by
  have hsorted : (sortDescBy (fun r : MatchResult Q C => r.score) all).Pairwise
      (fun r1 r2 => r2.score ≤ r1.score) :=
    sortDescBy_sorted (fun r => r.score) all
  have hdd := dedupAdj_sublist (fun r : MatchResult Q C => r.candidate)
    (sortDescBy (fun r => r.score) all)
  have hddpw := hsorted.sublist hdd
  have hddch := chain'_dedupAdj (fun r : MatchResult Q C => r.candidate)
    (sortDescBy (fun r => r.score) all)
  refine ⟨?_, ?_, ?_, ?_⟩
  · split
    · exact hddpw.sublist (List.take_sublist _ _)
    · exact hddpw
  · split
    · exact hddch.take _
    · exact hddch
  · intro hlim
    split
    · rename_i h
      rw [List.length_take]
      exact min_le_left _ _
    · rename_i h
      rcases not_and_or.mp h with h2 | h2
      · exact absurd hlim h2
      · exact le_of_not_lt h2
  · intro r hr
    have hrdd : r ∈ dedupAdj (fun r : MatchResult Q C => r.candidate)
        (sortDescBy (fun r => r.score) all) := by
      split at hr
      · exact (List.take_sublist _ _).mem hr
      · exact hr
    have hrs : r ∈ sortDescBy (fun r : MatchResult Q C => r.score) all := hdd.mem hrdd
    exact (mem_sortDescBy (fun r => r.score) all r).mp hrs

/-- C4 counterexample: in the multi-matcher whose first sub-matcher
scores candidate 1 at 9/10 and candidate 2 at 8/10 while the second
scores candidate 1 at 7/10, the merged, sorted list is
[1 ↦ 9/10, 2 ↦ 8/10, 1 ↦ 7/10]; candidate 2's entry separates the two
entries for candidate 1, so `dedup_by` (which only removes ADJACENT
duplicates) keeps both: candidate 1 appears twice in the result,
refuting deduplication by candidate identity. -/
theorem multi_find_matches_duplicate :
    (multiEx.find_matches () [1, 2] 0).map (fun r => r.candidate) = [1, 2, 1] ∧
    ¬ ((multiEx.find_matches () [1, 2] 0).map (fun r => r.candidate)).Nodup := by
  have h : (multiEx.find_matches () [1, 2] 0).map (fun r => r.candidate) = [1, 2, 1] := by
    norm_num [MultiMatcher.find_matches, Matcher.find_matches, Matcher.analyze,
      Matcher.get_metric_scores, Matcher.calculate_overall_score,
      Matcher.get_best_metric, maxByLastRaw, Metric.ofCalculate, metricM1, metricM2,
      matcherM1, matcherM2, multiEx, sortDescBy, orderedInsertGe, dedupAdj,
      dedupAdjAux, sumBy, List.filterMap_cons, List.filterMap_nil]
  refine ⟨h, ?_⟩
  rw [h]
  decide

/-- C4 amended: `MultiMatcher::find_matches` returns the concatenated
sub-matcher results sorted descending by score and truncated to
`limit` (0 = unlimited), but deduplication only removes ADJACENT
entries with equal candidate after sorting: no two neighbouring
entries share a candidate, yet the same candidate can reappear
non-adjacently (see the counterexample), so dedup is not by candidate
identity across the whole list. -/
theorem multi_find_matches_spec {Q C : Type} [DecidableEq C]
    (mm : MultiMatcher Q C) (q : Q) (cs : List C) (limit : ℕ) :
    ((mm.find_matches q cs limit).Pairwise (fun r1 r2 => r2.score ≤ r1.score)) ∧
    List.Chain' (fun r1 r2 => r1.candidate ≠ r2.candidate)
      (mm.find_matches q cs limit) ∧
    (0 < limit → (mm.find_matches q cs limit).length ≤ limit) ∧
    (∀ r ∈ mm.find_matches q cs limit,
      ∃ m ∈ mm.matchers, r ∈ m.find_matches q cs 0) := by
  unfold MultiMatcher.find_matches
  split
  · simp
  · have hpipe := dedup_sorted_pipeline
      (mm.matchers.foldl (fun acc m => acc ++ m.find_matches q cs 0) []) limit
    refine ⟨hpipe.1, hpipe.2.1, hpipe.2.2.1, ?_⟩
    intro r hr
    have hall := hpipe.2.2.2 r hr
    rcases (mem_foldl_append (fun m => m.find_matches q cs 0) mm.matchers [] r).mp
      hall with h | h
    · cases h
    · exact h

/-- C4 amended, witness at the concrete multi-matcher with limit 2. -/
theorem multi_find_matches_spec_witness :
    ((multiEx.find_matches () [1, 2] 2).Pairwise
      (fun r1 r2 => r2.score ≤ r1.score)) ∧
    List.Chain' (fun r1 r2 => r1.candidate ≠ r2.candidate)
      (multiEx.find_matches () [1, 2] 2) ∧
    (0 < 2 → (multiEx.find_matches () [1, 2] 2).length ≤ 2) ∧
    (∀ r ∈ multiEx.find_matches () [1, 2] 2,
      ∃ m ∈ multiEx.matchers, r ∈ m.find_matches () [1, 2] 0) :=
  multi_find_matches_spec multiEx () [1, 2] 2

end Matchete
